import Mathlib

/-!
Shallow embedding of `src/data-pipeline/glue_transform.py` (an AWS Glue /
PySpark batch job) and proofs about its record-cleaning pipeline.

Records are mappings from the fixed CSV header to optional strings (Spark
reads every column as a nullable string).  Each pipeline step of the script
(steps 2-10) is translated into a pure function on lists of records:
Spark `withColumn` becomes a per-record field rewrite, `filter` becomes
`List.filter`, `dropDuplicates` becomes first-occurrence deduplication.
Machine doubles are modelled as exact rationals, and Spark's
`round(_, 2)` (java.math.BigDecimal HALF_UP) as half-up rounding on ℚ.
-/

namespace GlueTransform

set_option maxRecDepth 2000

/-! ### Character helpers -/

/-- ASCII decimal digit, the `\d` / `[0-9]` class of the Python and Java
regexes used by the script. -/
def isDigitChar (c : Char) : Bool := decide (48 ≤ c.toNat) && decide (c.toNat ≤ 57)

/-- Whitespace as trimmed by Spark's `F.trim` / Python's `str.strip`
(ASCII control characters and space). -/
def isWsChar (c : Char) : Bool := decide (c.toNat ≤ 32)

/-- ASCII letter, the `[a-zA-Z]` class of the email regex. -/
def isLetterChar (c : Char) : Bool :=
  (decide (65 ≤ c.toNat) && decide (c.toNat ≤ 90)) ||
  (decide (97 ≤ c.toNat) && decide (c.toNat ≤ 122))

/-- Numeric value of a digit character. -/
def digitVal (c : Char) : Nat := c.toNat - 48

/-- Value of a digit string, most significant digit first. -/
def tokenVal (cs : List Char) : Nat := cs.foldl (fun n c => n * 10 + digitVal c) 0

/-- The decimal digit character for `n` (callers always pass `n ≤ 9`;
larger arguments are clamped to `9`). -/
def digitChar : Nat → Char
  | 0 => '0' | 1 => '1' | 2 => '2' | 3 => '3' | 4 => '4'
  | 5 => '5' | 6 => '6' | 7 => '7' | 8 => '8' | _ => '9'

/-- Strip leading and trailing whitespace, as `F.trim` (step 3) and the
`raw.strip()` inside `parse_date` do. -/
def trimChars (cs : List Char) : List Char :=
  ((cs.dropWhile isWsChar).reverse.dropWhile isWsChar).reverse

/-- String version of `trimChars`. -/
def trimStr (s : String) : String := ⟨trimChars s.data⟩

/-- `F.upper`: ASCII upper-casing of every character. -/
def upperStr (s : String) : String := ⟨s.data.map Char.toUpper⟩

/-- `F.lower`: ASCII lower-casing of every character. -/
def lowerStr (s : String) : String := ⟨s.data.map Char.toLower⟩

/-- Worker for `initcapStr`; the flag records whether the next character
starts a space-separated word. -/
def initcapGo : Bool → List Char → List Char
  | _, [] => []
  | atStart, c :: cs =>
    if c = ' ' then c :: initcapGo true cs
    else (if atStart then c.toUpper else c.toLower) :: initcapGo false cs

/-- `F.initcap` (step 5): first letter of each space-separated word
upper-cased, every other letter lower-cased. -/
def initcapStr (s : String) : String := ⟨initcapGo true s.data⟩

/-- Split a character list at every separator satisfying `p`; separators
are consumed, empty fields are kept (so `n` separators yield `n + 1`
fields). -/
def splitByP (p : Char → Bool) : List Char → List (List Char)
  | [] => [[]]
  | c :: cs =>
    if p c then [] :: splitByP p cs
    else
      match splitByP p cs with
      | t :: ts => (c :: t) :: ts
      | [] => [[c]]

/-- Split at every occurrence of the character `sep`. -/
def splitOnChar (sep : Char) (cs : List Char) : List (List Char) :=
  splitByP (fun c => c == sep) cs

/-- Split at whitespace runs, dropping empty fields: models the `\s+`
that CPython `strptime` substitutes for the literal spaces of a format
string (inputs reaching it are already stripped). -/
def splitWs (cs : List Char) : List (List Char) :=
  (splitByP isWsChar cs).filter (fun t => !t.isEmpty)

/-! ### Calendar dates (`datetime.strptime` / `datetime` constructor) -/

/-- Gregorian leap year, as Python's `calendar`/`datetime` define it. -/
def isLeap (y : Nat) : Prop := y % 4 = 0 ∧ (y % 100 ≠ 0 ∨ y % 400 = 0)

instance (y : Nat) : Decidable (isLeap y) := by unfold isLeap; infer_instance

/-- Length of month `m` in year `y`. -/
def daysInMonth (y m : Nat) : Nat :=
  match m with
  | 2 => if isLeap y then 29 else 28
  | 4 => 30 | 6 => 30 | 9 => 30 | 11 => 30
  | _ => 31

/-- The checks of the `datetime(year, month, day)` constructor:
`MINYEAR ≤ year ≤ MAXYEAR`, a real month, a day that exists in that
month.  `strptime` raises `ValueError` (caught by `parse_date`) exactly
when they fail. -/
def validDate (y m d : Nat) : Prop :=
  1 ≤ y ∧ y ≤ 9999 ∧ 1 ≤ m ∧ m ≤ 12 ∧ 1 ≤ d ∧ d ≤ daysInMonth y m

instance (y m d : Nat) : Decidable (validDate y m d) := by
  unfold validDate; infer_instance

/-- Final step shared by all six format parsers: build the date triple if
the calendar accepts it, otherwise fail (the `except ValueError: continue`
of the script). -/
def checkDate (y m d : Nat) : Option (Nat × Nat × Nat) :=
  if validDate y m d then some (y, m, d) else none

/-- A `%d` / `%m` field of CPython `strptime`: one or two digits whose
value lies in `[1, hi]` (`hi` is 31 for days, 12 for months; the regexes
`3[01]|[12]\d|0[1-9]|[1-9]` and `1[0-2]|0[1-9]|[1-9]` accept exactly
those tokens). -/
def parseNum2 (hi : Nat) (cs : List Char) : Option Nat :=
  if (cs.length = 1 ∨ cs.length = 2) ∧ cs.all isDigitChar = true ∧
      1 ≤ tokenVal cs ∧ tokenVal cs ≤ hi
  then some (tokenVal cs) else none

/-- A `%Y` field of CPython `strptime`: exactly four digits (`\d\d\d\d`). -/
def parseYear4 (cs : List Char) : Option Nat :=
  if cs.length = 4 ∧ cs.all isDigitChar = true then some (tokenVal cs) else none

/-- Month abbreviations accepted by `%b` (C locale). -/
def monthNamesAbbr : List String :=
  ["jan", "feb", "mar", "apr", "may", "jun",
   "jul", "aug", "sep", "oct", "nov", "dec"]

/-- Full month names accepted by `%B` (C locale). -/
def monthNamesFull : List String :=
  ["january", "february", "march", "april", "may", "june", "july",
   "august", "september", "october", "november", "december"]

/-- Case-insensitive month-name lookup (`strptime` matches month names
ignoring case and maps them to their index in the locale list). -/
def parseMonthName (names : List String) (cs : List Char) : Option Nat :=
  match names.findIdx? (fun n => n.data == cs.map Char.toLower) with
  | some i => some (i + 1)
  | none => none

/-- `strptime(raw, "%Y-%m-%d")`. -/
def tryIso (cs : List Char) : Option (Nat × Nat × Nat) :=
  match splitOnChar '-' cs with
  | [ys, ms, ds] =>
    match parseYear4 ys, parseNum2 12 ms, parseNum2 31 ds with
    | some y, some m, some d => checkDate y m d
    | _, _, _ => none
  | _ => none

/-- `strptime(raw, "%d/%m/%Y")`. -/
def tryDmySlash (cs : List Char) : Option (Nat × Nat × Nat) :=
  match splitOnChar '/' cs with
  | [ds, ms, ys] =>
    match parseNum2 31 ds, parseNum2 12 ms, parseYear4 ys with
    | some d, some m, some y => checkDate y m d
    | _, _, _ => none
  | _ => none

/-- `strptime(raw, "%Y/%m/%d")`. -/
def tryYmdSlash (cs : List Char) : Option (Nat × Nat × Nat) :=
  match splitOnChar '/' cs with
  | [ys, ms, ds] =>
    match parseYear4 ys, parseNum2 12 ms, parseNum2 31 ds with
    | some y, some m, some d => checkDate y m d
    | _, _, _ => none
  | _ => none

/-- `strptime(raw, "%b %d %Y")` and `strptime(raw, "%B %d %Y")`,
parameterised by the month-name list. -/
def tryMonthName (names : List String) (cs : List Char) : Option (Nat × Nat × Nat) :=
  match splitWs cs with
  | [bs, ds, ys] =>
    match parseMonthName names bs, parseNum2 31 ds, parseYear4 ys with
    | some m, some d, some y => checkDate y m d
    | _, _, _ => none
  | _ => none

/-- `strptime(raw, "%d-%m-%Y")`. -/
def tryDmyDash (cs : List Char) : Option (Nat × Nat × Nat) :=
  match splitOnChar '-' cs with
  | [ds, ms, ys] =>
    match parseNum2 31 ds, parseNum2 12 ms, parseYear4 ys with
    | some d, some m, some y => checkDate y m d
    | _, _, _ => none
  | _ => none

/-- First successful parse of an ordered list of attempts: the
`for fmt in formats: try ... except ValueError: continue` loop. -/
def firstSome {α : Type} : List (Option α) → Option α
  | [] => none
  | some x :: _ => some x
  | none :: rest => firstSome rest

/-- Two-digit zero-padded field of `strftime` (`%m`, `%d`). -/
def pad2Chars (n : Nat) : List Char := [digitChar (n / 10 % 10), digitChar (n % 10)]

/-- The `%Y` field of `strftime` as glibc (the platform CPython defers
to) prints it: the year in decimal with no zero-padding, so years below
1000 come out with fewer than four digits (year 500 prints `"500"`).
`%Y` input fields are exactly four digits, so values stay below 10000
and the four branches are exhaustive. -/
def yearChars (y : Nat) : List Char :=
  if y < 10 then [digitChar (y % 10)]
  else if y < 100 then [digitChar (y / 10 % 10), digitChar (y % 10)]
  else if y < 1000 then [digitChar (y / 100 % 10), digitChar (y / 10 % 10), digitChar (y % 10)]
  else [digitChar (y / 1000 % 10), digitChar (y / 100 % 10),
    digitChar (y / 10 % 10), digitChar (y % 10)]

/-- `datetime.strftime("%Y-%m-%d")`: zero-padded month and day, but a
year printed without padding — canonical `YYYY-MM-DD` only for years at
least 1000. -/
def formatDate (y m d : Nat) : String :=
  ⟨yearChars y ++ '-' :: (pad2Chars m ++ '-' :: pad2Chars d)⟩

/-- The script's `parse_date`: `None` propagates, otherwise the stripped
string is tried against the six formats in their written order and the
first full match is reformatted as `yyyy-MM-dd`; no match gives `None`. -/
def parse_date (raw : Option String) : Option String :=
  match raw with
  | none => none
  | some s =>
    match firstSome [tryIso (trimChars s.data), tryDmySlash (trimChars s.data),
                     tryYmdSlash (trimChars s.data),
                     tryMonthName monthNamesAbbr (trimChars s.data),
                     tryMonthName monthNamesFull (trimChars s.data),
                     tryDmyDash (trimChars s.data)] with
    | some (y, m, d) => some (formatDate y m d)
    | none => none

/-- A canonical `YYYY-MM-DD` string: ten characters, digits in the year,
month and day positions, hyphens between, denoting a valid calendar
date. -/
def isCanonicalDate (s : String) : Bool :=
  match s.data with
  | [y1, y2, y3, y4, h1, m1, m2, h2, d1, d2] =>
    (h1 == '-') && (h2 == '-') &&
    [y1, y2, y3, y4, m1, m2, d1, d2].all isDigitChar &&
    decide (validDate (tokenVal [y1, y2, y3, y4]) (tokenVal [m1, m2]) (tokenVal [d1, d2]))
  | _ => false

/-! ### Email validation (step 8)

The script keeps a row when `email` is null or matches
`^[a-zA-Z0-9._%+\-]+@[a-zA-Z0-9.\-]+\.[a-zA-Z]{2,}$` (Java regex via
`rlike`; the `^`/`$` anchors make it a full-string match on the trimmed
values the pipeline feeds it). -/

/-- The local-part class `[a-zA-Z0-9._%+\-]`. -/
def isLocalChar (c : Char) : Bool :=
  isLetterChar c || isDigitChar c ||
  (c == '.') || (c == '_') || (c == '%') || (c == '+') || (c == '-')

/-- The domain class `[a-zA-Z0-9.\-]`. -/
def isDomainChar (c : Char) : Bool :=
  isLetterChar c || isDigitChar c || (c == '.') || (c == '-')

/-- The top-level-domain tail `[a-zA-Z]{2,}$`. -/
def isTld (cs : List Char) : Bool := decide (2 ≤ cs.length) && cs.all isLetterChar

/-- Matcher for the part after `@`, i.e. `[a-zA-Z0-9.\-]+\.[a-zA-Z]{2,}$`;
`seen` records whether at least one domain character precedes the current
position. -/
def matchDomainTail (seen : Bool) : List Char → Bool
  | [] => false
  | c :: cs =>
    ((c == '.') && seen && isTld cs) ||
    (isDomainChar c && matchDomainTail true cs)

/-- Matcher for the whole regex; `seen` records whether at least one
local-part character has been consumed before the `@`. -/
def matchEmailGo (seen : Bool) : List Char → Bool
  | [] => false
  | c :: cs =>
    if c == '@' then seen && matchDomainTail false cs
    else isLocalChar c && matchEmailGo true cs

/-- Full-string match of the script's email regex. -/
def matchEmail (cs : List Char) : Bool := matchEmailGo false cs

/-- The email shape exactly as the spec words it: one-or-more local
characters, then `@`, then one-or-more domain characters, then `.`, then
two-or-more letters, anchored to the whole string. -/
def SpecEmail (cs : List Char) : Prop :=
  ∃ l u v : List Char,
    cs = l ++ '@' :: (u ++ '.' :: v) ∧
    l ≠ [] ∧ (∀ c ∈ l, isLocalChar c = true) ∧
    u ≠ [] ∧ (∀ c ∈ u, isDomainChar c = true) ∧
    2 ≤ v.length ∧ (∀ c ∈ v, isLetterChar c = true)

/-! ### Numeric casts and rounding (steps 9-10) -/

/-- A non-empty all-digit token and its value. -/
def parseNatDigits (cs : List Char) : Option Nat :=
  if cs ≠ [] ∧ cs.all isDigitChar = true then some (tokenVal cs) else none

/-- Spark `cast(IntegerType())` on a (trimmed) string column: an optional
sign followed by digits yields the integer, anything else yields null. -/
def castInt (s : String) : Option Int :=
  match s.data with
  | '-' :: cs => (parseNatDigits cs).map (fun n => -(n : Int))
  | '+' :: cs => (parseNatDigits cs).map (fun n => (n : Int))
  | cs => (parseNatDigits cs).map (fun n => (n : Int))

/-! ### IEEE binary64 doubles with Spark SQL semantics

Spark casts unit_price to an IEEE-754 double, multiplies in double
precision, and `F.round(_, 2)` goes through `BigDecimal.valueOf` — i.e.
`Double.toString`, the shortest decimal that rounds back to the same
double — before `HALF_UP` scaling.  We model a double as NaN, a signed
infinity, or an exact rational value representable in binary64 (every
finite value below is produced by `ratToDouble`, which performs IEEE
round-to-nearest, ties-to-even). -/

/-- A double value: NaN, infinity (the flag marks the negative one), or
a finite value carried as its exact rational. -/
inductive SparkDouble : Type where
  | nan : SparkDouble
  | inf : Bool → SparkDouble
  | finite : ℚ → SparkDouble
deriving DecidableEq

/-- `2 ^ k` as a rational, for integer `k` (computed through `Nat.pow`). -/
def qpow2 (k : ℤ) : ℚ :=
  if 0 ≤ k then ((2 ^ k.toNat : ℕ) : ℚ) else 1 / ((2 ^ (-k).toNat : ℕ) : ℚ)

/-- `10 ^ k` as a rational, for integer `k` (computed through `Nat.pow`). -/
def qpow10 (k : ℤ) : ℚ :=
  if 0 ≤ k then ((10 ^ k.toNat : ℕ) : ℚ) else 1 / ((10 ^ (-k).toNat : ℕ) : ℚ)

/-- Number of base-`b` digits of `n` (1 for `n = 0`). -/
def digitCount (b n : Nat) : Nat := (Nat.toDigits b n).length

/-- Whether `b ^ k ≤ n / d` for a positive fraction `n / d` and integer
`k`, decided on integers: `d * b ^ k ≤ n` for non-negative `k`, and
`d ≤ n * b ^ (-k)` otherwise. -/
def powLeFrac (b : Nat) (k : ℤ) (n d : Nat) : Bool :=
  if 0 ≤ k then decide (d * b ^ k.toNat ≤ n) else decide (d ≤ n * b ^ (-k).toNat)

/-- Floor of the base-2 logarithm of a positive rational: located within
one of the digit-count difference of numerator and denominator, then
fixed by direct comparison, so the result is the unique `k` with
`2 ^ k ≤ q < 2 ^ (k + 1)`. -/
def floorLog2 (q : ℚ) : ℤ :=
  let k0 : ℤ := (digitCount 2 q.num.natAbs : ℤ) - (digitCount 2 q.den : ℤ)
  if powLeFrac 2 (k0 + 1) q.num.natAbs q.den then k0 + 1
  else if powLeFrac 2 k0 q.num.natAbs q.den then k0
  else k0 - 1

/-- Floor of the base-10 logarithm of a positive rational, analogously. -/
def floorLog10 (q : ℚ) : ℤ :=
  let k0 : ℤ := (digitCount 10 q.num.natAbs : ℤ) - (digitCount 10 q.den : ℤ)
  if powLeFrac 10 (k0 + 1) q.num.natAbs q.den then k0 + 1
  else if powLeFrac 10 k0 q.num.natAbs q.den then k0
  else k0 - 1

/-- Round a positive rational to the nearest binary64 value
(round-to-nearest, ties-to-even): snap to the grid of multiples of
`2 ^ (e - 52)` in the value's binade (bottoming out at the subnormal
grid `2 ^ (-1074)`), overflowing to infinity at `2 ^ 1024` — detected on
the rounded mantissa's bit length, since
`m * 2 ^ exp ≥ 2 ^ 1024` exactly when `bits(m) - 1 + exp ≥ 1024`.  The
scaled value `a / 2 ^ exp` is handled as an integer fraction `sn / sd`,
rounded to the integer mantissa by comparing twice the remainder with
the divisor (ties to the even quotient). -/
def ratToDoublePos (a : ℚ) : SparkDouble :=
  let n := a.num.natAbs
  let d := a.den
  let e := floorLog2 a
  let exp : ℤ := max (e - 52) (-1074)
  let sn := n * 2 ^ (if 0 ≤ exp then 0 else (-exp).toNat)
  let sd := d * 2 ^ (if 0 ≤ exp then exp.toNat else 0)
  let m0 := sn / sd
  let r := sn % sd
  let m : Nat :=
    if 2 * r < sd then m0
    else if sd < 2 * r then m0 + 1
    else if m0 % 2 = 0 then m0 else m0 + 1
  if m = 0 then .finite 0
  else if 1024 ≤ (digitCount 2 m : ℤ) - 1 + exp then .inf false
  else .finite (if 0 ≤ exp then mkRat ((m * 2 ^ exp.toNat : Nat) : ℤ) 1
    else mkRat (m : ℤ) (2 ^ (-exp).toNat))

/-- Round any rational to the nearest binary64 value. -/
def ratToDouble (q : ℚ) : SparkDouble :=
  if q = 0 then .finite 0
  else if 0 < q then ratToDoublePos q
  else
    match ratToDoublePos (-q) with
    | .finite v => .finite (-v)
    | .inf _ => .inf true
    | .nan => .nan

/-- The int-to-double promotion Spark inserts for
`quantity * unit_price` (exact for every value below `2 ^ 53`). -/
def intToDouble (n : ℤ) : SparkDouble := ratToDouble (n : ℚ)

/-- IEEE double multiplication on the model: NaN propagates, infinity
times zero is NaN, finite products are rounded to the nearest double. -/
def sparkMul (x y2 : SparkDouble) : SparkDouble :=
  match x, y2 with
  | .nan, _ => .nan
  | _, .nan => .nan
  | .inf b1, .inf b2 => .inf (b1 != b2)
  | .inf b1, .finite q => if q = 0 then .nan else .inf (b1 != decide (q < 0))
  | .finite q, .inf b2 => if q = 0 then .nan else .inf (b2 != decide (q < 0))
  | .finite q1, .finite q2 => ratToDouble (q1 * q2)

/-- Spark SQL's `>` on doubles: the usual order with NaN treated as
larger than every other value (and equal to itself), -Infinity smallest,
+Infinity above all finite values. -/
def sparkGt (x y2 : SparkDouble) : Bool :=
  match x, y2 with
  | .nan, .nan => false
  | .nan, _ => true
  | _, .nan => false
  | .inf b1, .inf b2 => b2 && !b1
  | .inf b1, .finite _ => !b1
  | .finite _, .inf b2 => b2
  | .finite a, .finite b => decide (b < a)

/-- The decimal `c * 10 ^ g`, as a rational. -/
def shortestCand (g : ℤ) (c : ℕ) : ℚ :=
  if 0 ≤ g then mkRat ((c * 10 ^ g.toNat : Nat) : ℤ) 1 else mkRat (c : ℤ) (10 ^ (-g).toNat)

/-- Numerator of `a / 10 ^ g` as an integer fraction (for positive `a`). -/
def shortestSn (a : ℚ) (g : ℤ) : ℕ :=
  a.num.natAbs * 10 ^ (if 0 ≤ g then 0 else (-g).toNat)

/-- Denominator of `a / 10 ^ g` as an integer fraction. -/
def shortestSd (a : ℚ) (g : ℤ) : ℕ :=
  a.den * 10 ^ (if 0 ≤ g then g.toNat else 0)

/-- One precision level of the shortest-representation search: the two
decimals of step `10 ^ g` surrounding `a` (`c0 = ⌊a / 10 ^ g⌋` and
`c0 + 1`); any round-tripping decimal at this precision forces one of
these two to round-trip as well (the round-trip set is an interval
around `a`), so testing both and keeping the nearer round-tripper —
comparing twice the remainder of `a / 10 ^ g` against one half via the
integer fraction `sn / sd`, ties to the even digit string — is exact. -/
def shortestAt (a : ℚ) (g : ℤ) : Option ℚ :=
  if ratToDouble (shortestCand g (shortestSn a g / shortestSd a g)) = .finite a then
    if ratToDouble (shortestCand g (shortestSn a g / shortestSd a g + 1)) = .finite a then
      some
        (if 2 * shortestSn a g <
            (2 * (shortestSn a g / shortestSd a g) + 1) * shortestSd a g then
          shortestCand g (shortestSn a g / shortestSd a g)
        else if (2 * (shortestSn a g / shortestSd a g) + 1) * shortestSd a g <
            2 * shortestSn a g then
          shortestCand g (shortestSn a g / shortestSd a g + 1)
        else if (shortestSn a g / shortestSd a g) % 2 = 0 then
          shortestCand g (shortestSn a g / shortestSd a g)
        else shortestCand g (shortestSn a g / shortestSd a g + 1))
    else some (shortestCand g (shortestSn a g / shortestSd a g))
  else if ratToDouble (shortestCand g (shortestSn a g / shortestSd a g + 1)) = .finite a then
    some (shortestCand g (shortestSn a g / shortestSd a g + 1))
  else none

/-- The shortest-representation search on a positive value: precision
levels from one significant digit downwards, seventeen levels in all
(seventeen significant digits always suffice for binary64, so the
search is exhaustive). -/
def shortestReprPos (a : ℚ) : Option ℚ :=
  firstSome ((List.range 17).map fun i : ℕ => shortestAt a (floorLog10 a - (i : ℤ)))

/-- `Double.toString` on the exact value of a finite double (which is
what `BigDecimal.valueOf` parses): the decimal with the fewest
significant digits that rounds back to exactly this double, the nearest
such decimal among equals; the sign is carried separately and the
fallback branch is unreachable. -/
def shortestRepr (q : ℚ) : ℚ :=
  if q = 0 then 0
  else if q < 0 then
    match shortestReprPos (-q) with
    | some v => -v
    | none => q
  else
    match shortestReprPos q with
    | some v => v
    | none => q

/-- Exact half-up rounding at two decimal places (half away from zero):
the spec's literal reading of `round(quantity * unit_price, 2)`.  The
code's own rounding composes this with the shortest-decimal step, see
`sparkRound2`. -/
def roundHalfUp2 (x : ℚ) : ℚ :=
  if 0 ≤ x then (Rat.floor (x * 100 + 1 / 2) : ℚ) / 100
  else -((Rat.floor (-x * 100 + 1 / 2) : ℚ) / 100)

/-- Spark `F.round(col, 2)` on a double column: NaN and infinities pass
through; a finite value is rounded `HALF_UP` at two decimals of its
shortest round-trip decimal representation (`BigDecimal.valueOf`
semantics) and the result converted back to the nearest double. -/
def sparkRound2 (x : SparkDouble) : SparkDouble :=
  match x with
  | .finite q => ratToDouble (roundHalfUp2 (shortestRepr q))
  | other => other

/-- Unsigned Java decimal mantissa (`digits`, `digits.digits`,
`digits.` or `.digits`) as an exact rational. -/
def parseMantissa (cs : List Char) : Option ℚ :=
  let intPart := cs.takeWhile isDigitChar
  let rest := cs.dropWhile isDigitChar
  match rest with
  | [] => if intPart ≠ [] then some ((tokenVal intPart : ℚ)) else none
  | '.' :: fr =>
    if fr.all isDigitChar = true ∧ (intPart ≠ [] ∨ fr ≠ []) then
      some ((tokenVal intPart : ℚ) + (tokenVal fr : ℚ) / ((10 : ℚ) ^ fr.length))
    else none
  | _ => none

/-- The signed exponent part after `e`/`E` in a Java double literal. -/
def parseExp (cs : List Char) : Option ℤ :=
  match cs with
  | '-' :: ds => (parseNatDigits ds).map fun n => -(n : ℤ)
  | '+' :: ds => (parseNatDigits ds).map fun n => (n : ℤ)
  | ds => (parseNatDigits ds).map fun n => (n : ℤ)

/-- Unsigned Java decimal literal with optional exponent, as an exact
rational (hexadecimal forms and the `f`/`d` type suffixes are omitted). -/
def parseJavaDecimal (cs : List Char) : Option ℚ :=
  let mant := cs.takeWhile fun c => !(c == 'e' || c == 'E')
  match cs.dropWhile (fun c => !(c == 'e' || c == 'E')) with
  | [] => parseMantissa mant
  | _ :: es =>
    match parseMantissa mant, parseExp es with
    | some v, some ex => some (v * qpow10 ex)
    | _, _ => none

/-- Spark `cast(DoubleType())` on a string column: trim (Java's
`parseDouble` ignores surrounding whitespace), accept the special
literals `nan` / `[+-]inf` / `[+-]infinity` case-insensitively (Spark's
`processFloatingPointSpecialLiterals`, which also covers Java's own
`NaN` / `Infinity`), otherwise parse a signed decimal literal and round
it to the nearest double; anything else is null. -/
def castDouble (s : String) : Option SparkDouble :=
  let t := trimChars s.data
  let lower := t.map Char.toLower
  if lower = "nan".data then some .nan
  else if lower = "inf".data ∨ lower = "+inf".data ∨
      lower = "infinity".data ∨ lower = "+infinity".data then some (.inf false)
  else if lower = "-inf".data ∨ lower = "-infinity".data then some (.inf true)
  else
    match t with
    | '-' :: cs => (parseJavaDecimal cs).map fun q => ratToDouble (-q)
    | '+' :: cs => (parseJavaDecimal cs).map ratToDouble
    | cs => (parseJavaDecimal cs).map ratToDouble

/-! ### Records and the pipeline (steps 2-10) -/

/-- A raw CSV row: every column of the header read as a nullable string
(`inferSchema` is off). -/
structure RawRecord where
  order_id : Option String
  customer_name : Option String
  email : Option String
  country : Option String
  status : Option String
  product : Option String
  order_date : Option String
  quantity : Option String
  unit_price : Option String
deriving DecidableEq

/-- Step 3: `F.trim` applied to every column. -/
def trimRecord (r : RawRecord) : RawRecord where
  order_id := r.order_id.map trimStr
  customer_name := r.customer_name.map trimStr
  email := r.email.map trimStr
  country := r.country.map trimStr
  status := r.status.map trimStr
  product := r.product.map trimStr
  order_date := r.order_date.map trimStr
  quantity := r.quantity.map trimStr
  unit_price := r.unit_price.map trimStr

/-- Step 4 on one column: `F.when(F.upper(col) == "NULL", None).otherwise(col)`. -/
def nullifyStr (v : Option String) : Option String :=
  match v with
  | none => none
  | some s => if upperStr s = "NULL" then none else some s

/-- Step 4: the literal `NULL` sentinel (any casing) becomes a real null,
in every column. -/
def nullifyRecord (r : RawRecord) : RawRecord where
  order_id := nullifyStr r.order_id
  customer_name := nullifyStr r.customer_name
  email := nullifyStr r.email
  country := nullifyStr r.country
  status := nullifyStr r.status
  product := nullifyStr r.product
  order_date := nullifyStr r.order_date
  quantity := nullifyStr r.quantity
  unit_price := nullifyStr r.unit_price

/-- Step 5: `initcap` on customer_name and country, `lower` on status and
email. -/
def normalizeCase (r : RawRecord) : RawRecord :=
  { r with
    customer_name := r.customer_name.map initcapStr
    country := r.country.map initcapStr
    status := r.status.map lowerStr
    email := r.email.map lowerStr }

/-- Step 6: rewrite order_date through the `parse_date` UDF. -/
def parseDateRecord (r : RawRecord) : RawRecord :=
  { r with order_date := parse_date r.order_date }

/-- `col.isNotNull() & (col != "")`: in Spark a null compares to null, so
the conjunction is true exactly on a present, non-empty string. -/
def presentNonEmpty : Option String → Bool
  | none => false
  | some s => s != ""

/-- Step 7 filter: mandatory fields present and non-empty (order_date only
needs to be non-null: a successful parse is never empty). -/
def mandatoryOk (r : RawRecord) : Bool :=
  presentNonEmpty r.order_id && presentNonEmpty r.customer_name &&
  presentNonEmpty r.product && r.order_date.isSome && presentNonEmpty r.country

/-- Step 8 filter: `email.isNull() | email.rlike(regex)`. -/
def emailOk (r : RawRecord) : Bool :=
  match r.email with
  | none => true
  | some s => matchEmail s.data

/-- A row after step 9's casts: quantity an integer, unit_price a
double, both nullable. -/
structure TypedRecord where
  order_id : Option String
  customer_name : Option String
  email : Option String
  country : Option String
  status : Option String
  product : Option String
  order_date : Option String
  quantity : Option Int
  unit_price : Option SparkDouble
deriving DecidableEq

/-- Step 9 casts: `quantity.cast(IntegerType)`, `unit_price.cast(DoubleType)`;
a failed cast is null. -/
def castRecord (r : RawRecord) : TypedRecord where
  order_id := r.order_id
  customer_name := r.customer_name
  email := r.email
  country := r.country
  status := r.status
  product := r.product
  order_date := r.order_date
  quantity := r.quantity.bind castInt
  unit_price := r.unit_price.bind castDouble

/-- Step 9 filter: quantity non-null, `0 < quantity ≤ 10000`, unit_price
non-null and `> 0.0` under Spark's NaN-largest comparison (null
comparisons are null, hence false). -/
def numericOk (t : TypedRecord) : Bool :=
  match t.quantity, t.unit_price with
  | some q, some p => decide (0 < q) && decide (q ≤ 10000) && sparkGt p (.finite 0)
  | _, _ => false

/-- A final output row: all previous columns plus the derived
`order_total` and the two audit columns of step 10. -/
structure CleanRecord where
  order_id : Option String
  customer_name : Option String
  email : Option String
  country : Option String
  status : Option String
  product : Option String
  order_date : Option String
  quantity : Option Int
  unit_price : Option SparkDouble
  order_total : Option SparkDouble
  cleaned_at : String
  pipeline_version : String
deriving DecidableEq

/-- Step 10: `order_total = round(quantity * unit_price, 2)` (null if
either factor is null) and the two literal audit columns. -/
def stampRecord (version cleanedAt : String) (t : TypedRecord) : CleanRecord where
  order_id := t.order_id
  customer_name := t.customer_name
  email := t.email
  country := t.country
  status := t.status
  product := t.product
  order_date := t.order_date
  quantity := t.quantity
  unit_price := t.unit_price
  order_total :=
    match t.quantity, t.unit_price with
    | some q, some p => some (sparkRound2 (sparkMul (intToDouble q) p))
    | _, _ => none
  cleaned_at := cleanedAt
  pipeline_version := version

/-- Worker for `dedupRecords`: drop any row already in `seen`, keep the
first occurrence of every other row. -/
def dedupGo {α : Type} [DecidableEq α] (seen : List α) : List α → List α
  | [] => []
  | a :: l => if a ∈ seen then dedupGo seen l else a :: dedupGo (a :: seen) l

/-- Step 2: `dropDuplicates()` — keep one occurrence of each distinct
row (relative order among survivors is not significant in Spark; we keep
first occurrences). -/
def dedupRecords {α : Type} [DecidableEq α] (l : List α) : List α :=
  dedupGo [] l

/-- Steps 2-9: the typed, validated rows entering step 10. -/
def validatedRecords (raw : List RawRecord) : List TypedRecord :=
  (((((((dedupRecords raw).map trimRecord).map nullifyRecord).map normalizeCase).map
      parseDateRecord).filter mandatoryOk).filter emailOk).map castRecord
    |>.filter numericOk

/-- The whole core transform, steps 2-10, with the run's two audit
constants (`PIPELINE_VERSION` and the `datetime.utcnow()` stamp) passed
in explicitly. -/
def runPipeline (version cleanedAt : String) (raw : List RawRecord) : List CleanRecord :=
  (validatedRecords raw).map (stampRecord version cleanedAt)

/-! ### Sample rows used by concrete scenarios and witnesses -/

/-- A fully valid raw row (quantity `"3"`, unit_price `"9.995"`, the
derived-field scenario of the spec). -/
def sampleRaw : RawRecord where
  order_id := some "ord-1"
  customer_name := some "ann lee"
  email := some "A@B.co"
  country := some "norway"
  status := some "SHIPPED"
  product := some "Widget"
  order_date := some "2024-01-15"
  quantity := some "3"
  unit_price := some "9.995"

/-- The clean row the pipeline produces from `sampleRaw`; the two double
fields are the binary64 values nearest 9.995 and 29.99 (written in
mantissa-over-power-of-two normal form; `sampleClean_doubles` below
states them as roundings). -/
def sampleClean (version cleanedAt : String) : CleanRecord where
  order_id := some "ord-1"
  customer_name := some "Ann Lee"
  email := some "a@b.co"
  country := some "Norway"
  status := some "shipped"
  product := some "Widget"
  order_date := some "2024-01-15"
  quantity := some 3
  unit_price := some (.finite (5626684784446013 / 562949953421312 : ℚ))
  order_total := some (.finite (8441434551552573 / 281474976710656 : ℚ))
  cleaned_at := cleanedAt
  pipeline_version := version

/-- `sampleRaw` with a leading space in `product`: differs from
`sampleRaw` only in whitespace. -/
def sampleRawPadded : RawRecord := { sampleRaw with product := some " Widget" }

/-- `sampleRaw` with a whitespace-only email value. -/
def sampleRawWsEmail : RawRecord := { sampleRaw with email := some "   " }

/-- `sampleRaw` with no email value at all. -/
def sampleRawNoEmail : RawRecord := { sampleRaw with email := none }

/-- The clean row the pipeline produces from `sampleRawNoEmail`. -/
def sampleCleanNoEmail (version cleanedAt : String) : CleanRecord :=
  { sampleClean version cleanedAt with email := none }

/-- `sampleRaw` with an order_date in year 500 — a four-digit `%Y` token
that `strftime` prints back unpadded. -/
def sampleRawOldDate : RawRecord := { sampleRaw with order_date := some "0500-01-15" }

/-- `sampleRaw` with unit_price `"NaN"`, which Spark casts to the double
NaN and which passes the `> 0.0` filter under NaN-largest ordering. -/
def sampleRawPriceNaN : RawRecord := { sampleRaw with unit_price := some "NaN" }

/-- `sampleRaw` with unit_price `"1.005"`: the double product with
quantity 3 is 3.0149999999999997, just below the exact half-cent. -/
def sampleRawHalfCent : RawRecord := { sampleRaw with unit_price := some "1.005" }

/-! ### Helper lemmas -/

/-- Counting occurrences in the output of `dedupGo`: one per distinct
unseen element of the input, none otherwise. -/
theorem count_dedupGo {α : Type} [DecidableEq α] (l : List α) (seen : List α) (r : α) :
    (dedupGo seen l).count r = if r ∈ l ∧ r ∉ seen then 1 else 0 := by
  induction l generalizing seen with
  | nil => simp [dedupGo]
  | cons a l ih =>
    simp only [dedupGo]
    split
    · rcases eq_or_ne r a with rfl | hne
      · rw [ih]; simp_all
      · rw [ih]; simp [List.mem_cons, hne]
    · rcases eq_or_ne r a with rfl | hne
      · rw [List.count_cons_self, ih]; simp_all
      · rw [List.count_cons_of_ne hne, ih]; simp [List.mem_cons, hne]

/-- Counting occurrences in the output of `dedupRecords`. -/
theorem count_dedupRecords {α : Type} [DecidableEq α] (l : List α) (r : α) :
    (dedupRecords l).count r = if r ∈ l then 1 else 0 := by
  rw [dedupRecords, count_dedupGo]; simp

/-- Month lengths never exceed 31. -/
theorem daysInMonth_le (y m : Nat) : daysInMonth y m ≤ 31 := by
  unfold daysInMonth
  split <;> first | omega | (split <;> omega)

/-- `digitChar` of a value at most 9 is a decimal digit character. -/
theorem digitChar_isDigit {k : Nat} (h : k ≤ 9) : isDigitChar (digitChar k) = true := by
  interval_cases k <;> decide

/-- `digitVal` inverts `digitChar` on values at most 9. -/
theorem digitVal_digitChar {k : Nat} (h : k ≤ 9) : digitVal (digitChar k) = k := by
  interval_cases k <;> decide

/-- `strftime("%Y-%m-%d")` of a valid calendar date with a year of at
least 1000 is a canonical date string (below 1000 the year prints
unpadded and the output is shorter than ten characters). -/
theorem formatDate_canonical {y m d : Nat} (h : validDate y m d) (hy : 1000 ≤ y) :
    isCanonicalDate (formatDate y m d) = true := by
  obtain ⟨hy1, hy2, hm1, hm2, hd1, hd2⟩ := h
  have hd31 : d ≤ 31 := hd2.trans (daysInMonth_le y m)
  have e9 : ∀ n : Nat, n % 10 ≤ 9 := fun n => Nat.le_of_lt_succ (Nat.mod_lt n (by omega))
  have hyc : yearChars y = [digitChar (y / 1000 % 10), digitChar (y / 100 % 10),
      digitChar (y / 10 % 10), digitChar (y % 10)] := by
    unfold yearChars
    rw [if_neg (by omega), if_neg (by omega), if_neg (by omega)]
  simp only [formatDate, isCanonicalDate, hyc, pad2Chars, List.cons_append,
    List.nil_append, List.all_cons, List.all_nil, Bool.and_true, Bool.and_eq_true,
    beq_self_eq_true, true_and, decide_eq_true_eq, tokenVal, List.foldl,
    digitVal_digitChar (e9 _)]
  refine ⟨⟨?_, ?_, ?_, ?_, ?_, ?_, ?_, ?_⟩, ?_⟩
  case refine_1 => exact digitChar_isDigit (e9 _)
  case refine_2 => exact digitChar_isDigit (e9 _)
  case refine_3 => exact digitChar_isDigit (e9 _)
  case refine_4 => exact digitChar_isDigit (e9 _)
  case refine_5 => exact digitChar_isDigit (e9 _)
  case refine_6 => exact digitChar_isDigit (e9 _)
  case refine_7 => exact digitChar_isDigit (e9 _)
  case refine_8 => exact digitChar_isDigit (e9 _)
  case refine_9 =>
    have ey : (((0 * 10 + y / 1000 % 10) * 10 + y / 100 % 10) * 10 + y / 10 % 10) * 10 +
        y % 10 = y := by omega
    have em : (0 * 10 + m / 10 % 10) * 10 + m % 10 = m := by omega
    have ed : (0 * 10 + d / 10 % 10) * 10 + d % 10 = d := by omega
    rw [ey, em, ed]
    exact ⟨hy1, hy2, hm1, hm2, hd1, hd2⟩

/-- `checkDate` only succeeds on valid calendar dates. -/
theorem checkDate_valid {y m d : Nat} {t : Nat × Nat × Nat}
    (h : checkDate y m d = some t) : validDate t.1 t.2.1 t.2.2 := by
  unfold checkDate at h
  by_cases hv : validDate y m d
  · rw [if_pos hv] at h
    obtain rfl := Option.some.inj h
    exact hv
  · rw [if_neg hv] at h
    exact Option.noConfusion h

/-- `tryIso` only succeeds on valid calendar dates. -/
theorem tryIso_valid {cs : List Char} {t : Nat × Nat × Nat}
    (h : tryIso cs = some t) : validDate t.1 t.2.1 t.2.2 := by
  unfold tryIso at h
  split at h
  · split at h
    · exact checkDate_valid h
    · exact Option.noConfusion h
  · exact Option.noConfusion h

/-- `tryDmySlash` only succeeds on valid calendar dates. -/
theorem tryDmySlash_valid {cs : List Char} {t : Nat × Nat × Nat}
    (h : tryDmySlash cs = some t) : validDate t.1 t.2.1 t.2.2 := by
  unfold tryDmySlash at h
  split at h
  · split at h
    · exact checkDate_valid h
    · exact Option.noConfusion h
  · exact Option.noConfusion h

/-- `tryYmdSlash` only succeeds on valid calendar dates. -/
theorem tryYmdSlash_valid {cs : List Char} {t : Nat × Nat × Nat}
    (h : tryYmdSlash cs = some t) : validDate t.1 t.2.1 t.2.2 := by
  unfold tryYmdSlash at h
  split at h
  · split at h
    · exact checkDate_valid h
    · exact Option.noConfusion h
  · exact Option.noConfusion h

/-- `tryMonthName` only succeeds on valid calendar dates. -/
theorem tryMonthName_valid {names : List String} {cs : List Char} {t : Nat × Nat × Nat}
    (h : tryMonthName names cs = some t) : validDate t.1 t.2.1 t.2.2 := by
  unfold tryMonthName at h
  split at h
  · split at h
    · exact checkDate_valid h
    · exact Option.noConfusion h
  · exact Option.noConfusion h

/-- `tryDmyDash` only succeeds on valid calendar dates. -/
theorem tryDmyDash_valid {cs : List Char} {t : Nat × Nat × Nat}
    (h : tryDmyDash cs = some t) : validDate t.1 t.2.1 t.2.2 := by
  unfold tryDmyDash at h
  split at h
  · split at h
    · exact checkDate_valid h
    · exact Option.noConfusion h
  · exact Option.noConfusion h

/-- A successful `firstSome` returns one of the list's entries. -/
theorem firstSome_eq_some {α : Type} {l : List (Option α)} {x : α}
    (h : firstSome l = some x) : some x ∈ l := by
  induction l with
  | nil => exact Option.noConfusion h
  | cons o rest ih =>
    cases o with
    | some y =>
      simp only [firstSome, Option.some.injEq] at h
      subst h; exact List.mem_cons_self _ _
    | none => exact List.mem_cons_of_mem _ (ih h)

/-- Whatever `parse_date` outputs is `strftime("%Y-%m-%d")` of some
valid calendar date. -/
theorem parse_date_shape {v : Option String} {s : String}
    (h : parse_date v = some s) :
    ∃ y m d, validDate y m d ∧ s = formatDate y m d := by
  cases v with
  | none => exact Option.noConfusion h
  | some str =>
    simp only [parse_date] at h
    rcases hfs : firstSome [tryIso (trimChars str.data), tryDmySlash (trimChars str.data),
        tryYmdSlash (trimChars str.data), tryMonthName monthNamesAbbr (trimChars str.data),
        tryMonthName monthNamesFull (trimChars str.data), tryDmyDash (trimChars str.data)]
      with _ | ⟨⟨y, m, d⟩⟩
    · rw [hfs] at h
      exact Option.noConfusion h
    · rw [hfs] at h
      obtain rfl := Option.some.inj h
      have hmem := firstSome_eq_some hfs
      simp only [List.mem_cons, List.not_mem_nil, or_false] at hmem
      refine ⟨y, m, d, ?_, rfl⟩
      rcases hmem with h1 | h1 | h1 | h1 | h1 | h1
      · exact tryIso_valid h1.symm
      · exact tryDmySlash_valid h1.symm
      · exact tryYmdSlash_valid h1.symm
      · exact tryMonthName_valid h1.symm
      · exact tryMonthName_valid h1.symm
      · exact tryDmyDash_valid h1.symm

/-- `strftime("%Y-%m-%d")` output is never the empty string. -/
theorem formatDate_ne_empty (y m d : Nat) : formatDate y m d ≠ "" := by
  intro h
  exact List.append_ne_nil_of_right_ne_nil (yearChars y) (List.cons_ne_nil '-' _)
    (congrArg String.data h)

/-- `presentNonEmpty` characterised. -/
theorem presentNonEmpty_iff {v : Option String} :
    presentNonEmpty v = true ↔ ∃ s, v = some s ∧ s ≠ "" := by
  cases v <;> simp [presentNonEmpty]

/-- Inversion of steps 2-9: every validated row is the cast of a row that
passed the mandatory-field and email filters after date parsing. -/
theorem validatedRecords_inv {raw : List RawRecord} {tr : TypedRecord}
    (h : tr ∈ validatedRecords raw) :
    ∃ r5 : RawRecord, tr = castRecord (parseDateRecord r5) ∧
      mandatoryOk (parseDateRecord r5) = true ∧
      emailOk (parseDateRecord r5) = true ∧
      numericOk tr = true := by
  unfold validatedRecords at h
  obtain ⟨h9, hnum⟩ := List.mem_filter.mp h
  obtain ⟨r8, hr8, rfl⟩ := List.mem_map.mp h9
  obtain ⟨hr8m, hemail⟩ := List.mem_filter.mp hr8
  obtain ⟨hr7, hmand⟩ := List.mem_filter.mp hr8m
  obtain ⟨r5, _, rfl⟩ := List.mem_map.mp hr7
  exact ⟨r5, rfl, hmand, hemail, hnum⟩

/-- `'@'` is not a local-part character. -/
theorem isLocalChar_at : isLocalChar '@' = false := by decide

/-- `matchDomainTail` accepts exactly the strings of shape
`domain-chars ++ "." ++ tld` (with a non-empty domain part unless `seen`
says some domain characters were already consumed). -/
theorem matchDomainTail_iff (cs : List Char) (a : Bool) :
    matchDomainTail a cs = true ↔
      ∃ u v, cs = u ++ '.' :: v ∧ (a = true ∨ u ≠ []) ∧
        (∀ c ∈ u, isDomainChar c = true) ∧ isTld v = true := by
  induction cs generalizing a with
  | nil =>
    simp only [matchDomainTail, Bool.false_eq_true, false_iff]
    rintro ⟨u, v, hcs, -, -, -⟩
    exact absurd hcs.symm (List.append_ne_nil_of_right_ne_nil u (List.cons_ne_nil _ _))
  | cons c cs ih =>
    simp only [matchDomainTail, Bool.or_eq_true, Bool.and_eq_true, beq_iff_eq]
    constructor
    · rintro (⟨⟨hc, ha⟩, htld⟩ | ⟨hdc, hrec⟩)
      · subst hc
        exact ⟨[], cs, rfl, Or.inl ha, by simp, htld⟩
      · obtain ⟨u, v, hcs, -, hall, htld⟩ := (ih true).mp hrec
        refine ⟨c :: u, v, by rw [List.cons_append, hcs], Or.inr (by simp), ?_, htld⟩
        intro x hx
        rcases List.mem_cons.mp hx with rfl | hx
        · exact hdc
        · exact hall x hx
    · rintro ⟨u, v, hcs, hne, hall, htld⟩
      cases u with
      | nil =>
        simp only [List.nil_append] at hcs
        obtain ⟨rfl, rfl⟩ := List.cons.inj hcs
        rcases hne with ha | hne'
        · exact Or.inl ⟨⟨rfl, ha⟩, htld⟩
        · exact absurd rfl hne'
      | cons x u' =>
        simp only [List.cons_append] at hcs
        obtain ⟨rfl, rfl⟩ := List.cons.inj hcs
        refine Or.inr ⟨hall c (List.mem_cons_self _ _), (ih true).mpr
          ⟨u', v, rfl, Or.inl rfl, fun z hz => hall z (List.mem_cons_of_mem _ hz), htld⟩⟩

/-- `matchEmailGo` accepts exactly the strings of shape
`local-chars ++ "@" ++ domain-tail` (with a non-empty local part unless
`seen` says some local characters were already consumed). -/
theorem matchEmailGo_iff (cs : List Char) (a : Bool) :
    matchEmailGo a cs = true ↔
      ∃ l rest, cs = l ++ '@' :: rest ∧ (a = true ∨ l ≠ []) ∧
        (∀ c ∈ l, isLocalChar c = true) ∧ matchDomainTail false rest = true := by
  induction cs generalizing a with
  | nil =>
    simp only [matchEmailGo, Bool.false_eq_true, false_iff]
    rintro ⟨l, rest, hcs, -, -, -⟩
    exact absurd hcs.symm (List.append_ne_nil_of_right_ne_nil l (List.cons_ne_nil _ _))
  | cons c cs ih =>
    simp only [matchEmailGo]
    split
    · rename_i hceq
      obtain rfl : c = '@' := eq_of_beq hceq
      simp only [Bool.and_eq_true]
      constructor
      · rintro ⟨ha, hd⟩
        exact ⟨[], cs, rfl, Or.inl ha, by simp, hd⟩
      · rintro ⟨l, rest, hcs, hne, hall, hd⟩
        cases l with
        | nil =>
          simp only [List.nil_append] at hcs
          obtain ⟨-, rfl⟩ := List.cons.inj hcs
          rcases hne with ha | hne'
          · exact ⟨ha, hd⟩
          · exact absurd rfl hne'
        | cons x l' =>
          simp only [List.cons_append] at hcs
          obtain ⟨hx, rfl⟩ := List.cons.inj hcs
          have := hall x (List.mem_cons_self _ _)
          rw [← hx, isLocalChar_at] at this
          exact Bool.noConfusion this
    · rename_i hcne
      have hc' : c ≠ '@' := fun hc => by rw [hc] at hcne; exact hcne rfl
      simp only [Bool.and_eq_true]
      constructor
      · rintro ⟨hlc, hrec⟩
        obtain ⟨l, rest, hcs, -, hall, hd⟩ := (ih true).mp hrec
        refine ⟨c :: l, rest, by rw [List.cons_append, hcs], Or.inr (by simp), ?_, hd⟩
        intro x hx
        rcases List.mem_cons.mp hx with rfl | hx
        · exact hlc
        · exact hall x hx
      · rintro ⟨l, rest, hcs, hne, hall, hd⟩
        cases l with
        | nil =>
          simp only [List.nil_append] at hcs
          obtain ⟨rfl, -⟩ := List.cons.inj hcs
          exact absurd rfl hc'
        | cons x l' =>
          simp only [List.cons_append] at hcs
          obtain ⟨rfl, rfl⟩ := List.cons.inj hcs
          exact ⟨hall c (List.mem_cons_self _ _), (ih true).mpr
            ⟨l', rest, rfl, Or.inl rfl, fun z hz => hall z (List.mem_cons_of_mem _ hz), hd⟩⟩

/-- The executable email matcher recognises exactly the address shape
described by the spec. -/
theorem matchEmail_iff (cs : List Char) : matchEmail cs = true ↔ SpecEmail cs := by
  unfold matchEmail SpecEmail
  rw [matchEmailGo_iff]
  constructor
  · rintro ⟨l, rest, rfl, hne, hall, hd⟩
    obtain ⟨u, v, rfl, hune, huall, htld⟩ := (matchDomainTail_iff rest false).mp hd
    rcases hne with h | hlne
    · exact Bool.noConfusion h
    rcases hune with h | hune'
    · exact absurd h (by simp)
    simp only [isTld, Bool.and_eq_true, decide_eq_true_eq, List.all_eq_true] at htld
    exact ⟨l, u, v, rfl, hlne, hall, hune', huall, htld.1, htld.2⟩
  · rintro ⟨l, u, v, rfl, hlne, hlall, hune, huall, hvlen, hvall⟩
    refine ⟨l, u ++ '.' :: v, rfl, Or.inr hlne, hlall,
      (matchDomainTail_iff _ false).mpr ⟨u, v, rfl, Or.inr hune, huall, ?_⟩⟩
    simp only [isTld, Bool.and_eq_true, decide_eq_true_eq, List.all_eq_true]
    exact ⟨hvlen, hvall⟩

/-! ### Claims -/

/-- The typed row steps 2-9 produce from `sampleRaw` (unit_price is the
double nearest 9.995). -/
def sampleTyped : TypedRecord where
  order_id := some "ord-1"
  customer_name := some "Ann Lee"
  email := some "a@b.co"
  country := some "Norway"
  status := some "shipped"
  product := some "Widget"
  order_date := some "2024-01-15"
  quantity := some 3
  unit_price := some (.finite (5626684784446013 / 562949953421312 : ℚ))

/-- Steps 2-9 on `sampleRaw`, evaluated. -/
theorem validatedRecords_sampleRaw :
    validatedRecords [sampleRaw] = [sampleTyped] := by
  with_unfolding_all rfl

/-- Steps 2-9 on the whitespace-padded duplicate pair, evaluated. -/
theorem validatedRecords_padded :
    validatedRecords [sampleRawPadded, sampleRaw] = [sampleTyped, sampleTyped] := by
  with_unfolding_all rfl

/-- Steps 2-9 on `sampleRawNoEmail`, evaluated. -/
theorem validatedRecords_noEmail :
    validatedRecords [sampleRawNoEmail] = [{ sampleTyped with email := none }] := by
  with_unfolding_all rfl

/-- Steps 2-9 on `sampleRawHalfCent`, evaluated (unit_price is the
double nearest 1.005). -/
theorem validatedRecords_halfCent :
    validatedRecords [sampleRawHalfCent] =
      [{ sampleTyped with unit_price := some (.finite (1131529406376837 / 1125899906842624 : ℚ)) }] := by
  with_unfolding_all rfl

/-- A leading `none` does not settle the search. -/
theorem firstSome_cons_none {α : Type} {x : Option α} {xs : List (Option α)}
    (h : x = none) : firstSome (x :: xs) = firstSome xs := by
  subst h; rfl

/-- A leading `some` settles the search. -/
theorem firstSome_cons_some {α : Type} {x : Option α} {xs : List (Option α)} {v : α}
    (h : x = some v) : firstSome (x :: xs) = some v := by
  subst h; rfl

/-- On a positive input a successful search gives the shortest
representation directly. -/
theorem shortestRepr_of_pos {q v : ℚ} (h0 : ¬ q = 0) (hneg : ¬ q < 0)
    (h : shortestReprPos q = some v) : shortestRepr q = v := by
  unfold shortestRepr
  rw [if_neg h0, if_neg hneg, h]

/-- Evaluate one `shortestAt` level through given values of its pieces,
in the case where only the upper of the two surrounding decimals
round-trips. -/
theorem shortestAt_some_hi {a : ℚ} {g : ℤ} (sn sd c0 : ℕ) (lo hi : ℚ)
    (hsn : shortestSn a g = sn) (hsd : shortestSd a g = sd) (hc0 : sn / sd = c0)
    (hlo : shortestCand g c0 = lo) (hhi : shortestCand g (c0 + 1) = hi)
    (hloOk : ¬ ratToDouble lo = .finite a) (hhiOk : ratToDouble hi = .finite a) :
    shortestAt a g = some hi := by
  unfold shortestAt
  rw [hsn, hsd, hc0, hlo, hhi, if_neg hloOk, if_pos hhiOk]

/-- Evaluate one `shortestAt` level through given values of its pieces,
in the case where both surrounding decimals round-trip and the upper one
is strictly nearer. -/
theorem shortestAt_some_both_hi {a : ℚ} {g : ℤ} (sn sd c0 : ℕ) (lo hi : ℚ)
    (hsn : shortestSn a g = sn) (hsd : shortestSd a g = sd) (hc0 : sn / sd = c0)
    (hlo : shortestCand g c0 = lo) (hhi : shortestCand g (c0 + 1) = hi)
    (hloOk : ratToDouble lo = .finite a) (hhiOk : ratToDouble hi = .finite a)
    (hcmp : (2 * c0 + 1) * sd < 2 * sn) :
    shortestAt a g = some hi := by
  unfold shortestAt
  rw [hsn, hsd, hc0, hlo, hhi, if_pos hloOk, if_pos hhiOk,
    if_neg (Nat.lt_asymm hcmp), if_pos hcmp]

/-- At four significant digits the product double of the 9.995 row sits
between 29.984 and 29.985, and only 29.985 rounds back to it. -/
theorem sa_sample :
    shortestAt (2110006794167255 / 70368744177664 : ℚ) (1 - ((4 : ℕ) : ℤ)) =
      some (29985 / 1000 : ℚ) :=
  shortestAt_some_hi 2110006794167255000 70368744177664 29984
    (29984 / 1000 : ℚ) (29985 / 1000 : ℚ)
    (by with_unfolding_all rfl) (by with_unfolding_all rfl) (by with_unfolding_all rfl)
    (by with_unfolding_all rfl) (by with_unfolding_all rfl)
    (by with_unfolding_all decide) (by with_unfolding_all rfl)

/-- At seventeen significant digits the product double of the 1.005 row
sits between 3.0149999999999996 and 3.0149999999999997; both round back
to it and the upper one is nearer. -/
theorem sa_halfCent :
    shortestAt (3394588219130511 / 1125899906842624 : ℚ) (0 - ((16 : ℕ) : ℤ)) =
      some (30149999999999997 / 10000000000000000 : ℚ) :=
  shortestAt_some_both_hi 33945882191305110000000000000000 1125899906842624
    30149999999999996
    (30149999999999996 / 10000000000000000 : ℚ) (30149999999999997 / 10000000000000000 : ℚ)
    (by with_unfolding_all rfl) (by with_unfolding_all rfl) (by with_unfolding_all rfl)
    (by with_unfolding_all rfl) (by with_unfolding_all rfl)
    (by with_unfolding_all rfl) (by with_unfolding_all rfl)
    (by decide)

/-- The search on the product double of the 9.995 row fails down to four significant digits and succeeds there. -/
theorem srp_sample :
    shortestReprPos (2110006794167255 / 70368744177664 : ℚ) = some (29985 / 1000 : ℚ) := by
  unfold shortestReprPos
  rw [show floorLog10 (2110006794167255 / 70368744177664 : ℚ) = 1 from by with_unfolding_all rfl]
  rw [show List.range 17 = [0, 1, 2, 3, 4, 5, 6, 7, 8, 9, 10, 11, 12, 13, 14, 15, 16] from rfl]
  simp only [List.map_cons, List.map_nil]
  rw [firstSome_cons_none (show shortestAt (2110006794167255 / 70368744177664 : ℚ)
      (1 - ((0 : ℕ) : ℤ)) = none from by with_unfolding_all rfl),
    firstSome_cons_none (show shortestAt (2110006794167255 / 70368744177664 : ℚ)
      (1 - ((1 : ℕ) : ℤ)) = none from by with_unfolding_all rfl),
    firstSome_cons_none (show shortestAt (2110006794167255 / 70368744177664 : ℚ)
      (1 - ((2 : ℕ) : ℤ)) = none from by with_unfolding_all rfl),
    firstSome_cons_none (show shortestAt (2110006794167255 / 70368744177664 : ℚ)
      (1 - ((3 : ℕ) : ℤ)) = none from by with_unfolding_all rfl),
    firstSome_cons_some sa_sample]

/-- The search on the product double of the 1.005 row fails down to seventeen significant digits and succeeds only there. -/
theorem srp_halfCent :
    shortestReprPos (3394588219130511 / 1125899906842624 : ℚ) = some (30149999999999997 / 10000000000000000 : ℚ) := by
  unfold shortestReprPos
  rw [show floorLog10 (3394588219130511 / 1125899906842624 : ℚ) = 0 from by with_unfolding_all rfl]
  rw [show List.range 17 = [0, 1, 2, 3, 4, 5, 6, 7, 8, 9, 10, 11, 12, 13, 14, 15, 16] from rfl]
  simp only [List.map_cons, List.map_nil]
  rw [firstSome_cons_none (show shortestAt (3394588219130511 / 1125899906842624 : ℚ)
      (0 - ((0 : ℕ) : ℤ)) = none from by with_unfolding_all rfl),
    firstSome_cons_none (show shortestAt (3394588219130511 / 1125899906842624 : ℚ)
      (0 - ((1 : ℕ) : ℤ)) = none from by with_unfolding_all rfl),
    firstSome_cons_none (show shortestAt (3394588219130511 / 1125899906842624 : ℚ)
      (0 - ((2 : ℕ) : ℤ)) = none from by with_unfolding_all rfl),
    firstSome_cons_none (show shortestAt (3394588219130511 / 1125899906842624 : ℚ)
      (0 - ((3 : ℕ) : ℤ)) = none from by with_unfolding_all rfl),
    firstSome_cons_none (show shortestAt (3394588219130511 / 1125899906842624 : ℚ)
      (0 - ((4 : ℕ) : ℤ)) = none from by with_unfolding_all rfl),
    firstSome_cons_none (show shortestAt (3394588219130511 / 1125899906842624 : ℚ)
      (0 - ((5 : ℕ) : ℤ)) = none from by with_unfolding_all rfl),
    firstSome_cons_none (show shortestAt (3394588219130511 / 1125899906842624 : ℚ)
      (0 - ((6 : ℕ) : ℤ)) = none from by with_unfolding_all rfl),
    firstSome_cons_none (show shortestAt (3394588219130511 / 1125899906842624 : ℚ)
      (0 - ((7 : ℕ) : ℤ)) = none from by with_unfolding_all rfl),
    firstSome_cons_none (show shortestAt (3394588219130511 / 1125899906842624 : ℚ)
      (0 - ((8 : ℕ) : ℤ)) = none from by with_unfolding_all rfl),
    firstSome_cons_none (show shortestAt (3394588219130511 / 1125899906842624 : ℚ)
      (0 - ((9 : ℕ) : ℤ)) = none from by with_unfolding_all rfl),
    firstSome_cons_none (show shortestAt (3394588219130511 / 1125899906842624 : ℚ)
      (0 - ((10 : ℕ) : ℤ)) = none from by with_unfolding_all rfl),
    firstSome_cons_none (show shortestAt (3394588219130511 / 1125899906842624 : ℚ)
      (0 - ((11 : ℕ) : ℤ)) = none from by with_unfolding_all rfl),
    firstSome_cons_none (show shortestAt (3394588219130511 / 1125899906842624 : ℚ)
      (0 - ((12 : ℕ) : ℤ)) = none from by with_unfolding_all rfl),
    firstSome_cons_none (show shortestAt (3394588219130511 / 1125899906842624 : ℚ)
      (0 - ((13 : ℕ) : ℤ)) = none from by with_unfolding_all rfl),
    firstSome_cons_none (show shortestAt (3394588219130511 / 1125899906842624 : ℚ)
      (0 - ((14 : ℕ) : ℤ)) = none from by with_unfolding_all rfl),
    firstSome_cons_none (show shortestAt (3394588219130511 / 1125899906842624 : ℚ)
      (0 - ((15 : ℕ) : ℤ)) = none from by with_unfolding_all rfl),
    firstSome_cons_some sa_halfCent]

/-- `Double.toString` of the product double of the 9.995 row is `29.985`. -/
theorem sr_sample : shortestRepr (2110006794167255 / 70368744177664 : ℚ) = (29985 / 1000 : ℚ) :=
  shortestRepr_of_pos (by with_unfolding_all decide) (by with_unfolding_all decide) srp_sample

/-- `Double.toString` of the product double of the 1.005 row is
`3.0149999999999997`. -/
theorem sr_halfCent : shortestRepr (3394588219130511 / 1125899906842624 : ℚ) = (30149999999999997 / 10000000000000000 : ℚ) :=
  shortestRepr_of_pos (by with_unfolding_all decide) (by with_unfolding_all decide) srp_halfCent

/-- Unfold `sparkRound2` on a finite double through given evaluations of
its three stages. -/
theorem sparkRound2_finite_eq {q s u : ℚ} {d : SparkDouble}
    (hs : shortestRepr q = s) (hu : roundHalfUp2 s = u) (hd : ratToDouble u = d) :
    sparkRound2 (.finite q) = d := by
  simp only [sparkRound2, hs, hu, hd]

/-- The order_total chain on the quantity-3, price-9.995 row: the double
product has shortest repr `29.985`, which half-up rounds to 29.99 and
converts to the double nearest 29.99. -/
theorem stamp_chain_sample :
    sparkRound2 (sparkMul (intToDouble 3)
        (.finite (5626684784446013 / 562949953421312 : ℚ))) =
      .finite (8441434551552573 / 281474976710656 : ℚ) := by
  rw [show sparkMul (intToDouble 3) (.finite (5626684784446013 / 562949953421312 : ℚ)) =
      .finite (2110006794167255 / 70368744177664 : ℚ) from by with_unfolding_all rfl]
  exact sparkRound2_finite_eq (u := (2999 / 100 : ℚ)) sr_sample
    (by with_unfolding_all rfl) (by with_unfolding_all rfl)

/-- The order_total chain on the quantity-3, price-1.005 row: the double
product has shortest repr `3.0149999999999997`, which half-up rounds to
3.01 (not 3.02) and converts to the double nearest 3.01. -/
theorem stamp_chain_halfCent :
    sparkRound2 (sparkMul (intToDouble 3)
        (.finite (1131529406376837 / 1125899906842624 : ℚ))) =
      .finite (1694479359798149 / 562949953421312 : ℚ) := by
  rw [show sparkMul (intToDouble 3) (.finite (1131529406376837 / 1125899906842624 : ℚ)) =
      .finite (3394588219130511 / 1125899906842624 : ℚ) from by with_unfolding_all rfl]
  exact sparkRound2_finite_eq (u := (301 / 100 : ℚ)) sr_halfCent
    (by with_unfolding_all rfl) (by with_unfolding_all rfl)

/-- Concrete evaluation of the whole pipeline on `sampleRaw`, shared by
the witnesses below. -/
theorem runPipeline_sampleRaw :
    runPipeline "1.0.0" "2024-05-01 12:00:00" [sampleRaw] =
      [sampleClean "1.0.0" "2024-05-01 12:00:00"] := by
  unfold runPipeline
  rw [validatedRecords_sampleRaw]
  simp only [List.map_cons, List.map_nil, stampRecord, sampleTyped, sampleClean,
    stamp_chain_sample]

/-- Membership form of `runPipeline_sampleRaw`. -/
theorem mem_runPipeline_sampleRaw :
    sampleClean "1.0.0" "2024-05-01 12:00:00" ∈
      runPipeline "1.0.0" "2024-05-01 12:00:00" [sampleRaw] := by
  rw [runPipeline_sampleRaw]
  exact List.mem_singleton.mpr rfl

/-- C1 (amended): every record in the final output has order_id,
customer_name, product, country and order_date present and non-empty,
quantity an integer with 0 < quantity ≤ 10000, unit_price passing
Spark's `> 0.0` comparison (a positive finite double, +Infinity, or NaN
— Spark orders NaN above every number), and order_date the `strftime`
rendering of a valid calendar date, which is a canonical `YYYY-MM-DD`
string whenever the year is at least 1000 (below 1000 the year prints
unpadded). -/
theorem output_invariants (version cleanedAt : String) (raw : List RawRecord)
    (c : CleanRecord) (hc : c ∈ runPipeline version cleanedAt raw) :
    (∃ s, c.order_id = some s ∧ s ≠ "") ∧
    (∃ s, c.customer_name = some s ∧ s ≠ "") ∧
    (∃ s, c.product = some s ∧ s ≠ "") ∧
    (∃ s, c.country = some s ∧ s ≠ "") ∧
    (∃ s, c.order_date = some s ∧ s ≠ "" ∧
      ∃ y m d, validDate y m d ∧ s = formatDate y m d ∧
        (1000 ≤ y → isCanonicalDate s = true)) ∧
    (∃ q, c.quantity = some q ∧ 0 < q ∧ q ≤ 10000) ∧
    (∃ p, c.unit_price = some p ∧ sparkGt p (SparkDouble.finite 0) = true) := by
  unfold runPipeline at hc
  obtain ⟨tr, htr, rfl⟩ := List.mem_map.mp hc
  obtain ⟨r5, rfl, hmand, hemail, hnum⟩ := validatedRecords_inv htr
  simp only [mandatoryOk, Bool.and_eq_true] at hmand
  obtain ⟨⟨⟨⟨hoid, hname⟩, hprod⟩, hdate⟩, hcountry⟩ := hmand
  have hnum' : ∃ q p, (castRecord (parseDateRecord r5)).quantity = some q ∧
      (castRecord (parseDateRecord r5)).unit_price = some p ∧
      0 < q ∧ q ≤ 10000 ∧ sparkGt p (SparkDouble.finite 0) = true := by
    rcases hq : (castRecord (parseDateRecord r5)).quantity with _ | q
    · simp [numericOk, hq] at hnum
    · rcases hp : (castRecord (parseDateRecord r5)).unit_price with _ | p
      · simp [numericOk, hq, hp] at hnum
      · simp only [numericOk, hq, hp, Bool.and_eq_true, decide_eq_true_eq] at hnum
        exact ⟨q, p, rfl, rfl, hnum.1.1, hnum.1.2, hnum.2⟩
  obtain ⟨q, p, hq, hp, hq1, hq2, hp1⟩ := hnum'
  obtain ⟨ds, hds⟩ := Option.isSome_iff_exists.mp hdate
  obtain ⟨y, m, d, hv, rfl⟩ := parse_date_shape (v := r5.order_date) hds
  refine ⟨presentNonEmpty_iff.mp hoid, presentNonEmpty_iff.mp hname,
    presentNonEmpty_iff.mp hprod, presentNonEmpty_iff.mp hcountry,
    ⟨formatDate y m d, hds, formatDate_ne_empty y m d, y, m, d, hv, rfl,
      fun h1000 => formatDate_canonical hv h1000⟩,
    ⟨q, hq, hq1, hq2⟩, ⟨p, hp, hp1⟩⟩

/-- C1 counterexample to the original claim: an order_date in year 500
survives the pipeline but is printed unpadded — a nine-character,
non-canonical date string in the final output — and a unit_price of
`"NaN"` survives Spark's `> 0.0` filter, leaving a NaN (not a positive
number) in the output. -/
theorem output_invariants_cex :
    (runPipeline "1.0.0" "2024-05-01 12:00:00" [sampleRawOldDate]).map
        CleanRecord.order_date = [some "500-01-15"] ∧
    isCanonicalDate "500-01-15" = false ∧
    (runPipeline "1.0.0" "2024-05-01 12:00:00" [sampleRawPriceNaN]).map
        CleanRecord.unit_price = [some SparkDouble.nan] := by
  refine ⟨by with_unfolding_all rfl, by decide, by with_unfolding_all rfl⟩

/-- C1 witness: the amended invariants hold for the concrete clean
record the pipeline produces from `sampleRaw`. -/
theorem output_invariants_witness :
    (∃ s, (sampleClean "1.0.0" "2024-05-01 12:00:00").order_id = some s ∧ s ≠ "") ∧
    (∃ s, (sampleClean "1.0.0" "2024-05-01 12:00:00").customer_name = some s ∧ s ≠ "") ∧
    (∃ s, (sampleClean "1.0.0" "2024-05-01 12:00:00").product = some s ∧ s ≠ "") ∧
    (∃ s, (sampleClean "1.0.0" "2024-05-01 12:00:00").country = some s ∧ s ≠ "") ∧
    (∃ s, (sampleClean "1.0.0" "2024-05-01 12:00:00").order_date = some s ∧ s ≠ "" ∧
      ∃ y m d, validDate y m d ∧ s = formatDate y m d ∧
        (1000 ≤ y → isCanonicalDate s = true)) ∧
    (∃ q, (sampleClean "1.0.0" "2024-05-01 12:00:00").quantity = some q ∧
      0 < q ∧ q ≤ 10000) ∧
    (∃ p, (sampleClean "1.0.0" "2024-05-01 12:00:00").unit_price = some p ∧
      sparkGt p (SparkDouble.finite 0) = true) :=
  output_invariants "1.0.0" "2024-05-01 12:00:00" [sampleRaw] _
    mem_runPipeline_sampleRaw

/-- C2 (amended): for every surviving record, order_total is the double
product of quantity and unit_price rounded half-up at two decimals of
its shortest round-trip decimal representation (`BigDecimal.valueOf`
semantics); the concrete row with quantity `"3"` and unit_price
`"9.995"` gets order_total exactly the double 29.99. -/
theorem order_total_correct (version cleanedAt : String) (raw : List RawRecord)
    (c : CleanRecord) (hc : c ∈ runPipeline version cleanedAt raw) :
    (∃ q p, c.quantity = some q ∧ c.unit_price = some p ∧
        c.order_total = some (sparkRound2 (sparkMul (intToDouble q) p))) ∧
    (runPipeline "1.0.0" "2024-05-01 12:00:00" [sampleRaw]).map CleanRecord.order_total =
      [some (SparkDouble.finite (8441434551552573 / 281474976710656 : ℚ))] ∧
    ratToDouble (2999 / 100 : ℚ) = SparkDouble.finite (8441434551552573 / 281474976710656 : ℚ) := by
  refine ⟨?_, ?_, by with_unfolding_all rfl⟩
  · unfold runPipeline at hc
    obtain ⟨tr, htr, rfl⟩ := List.mem_map.mp hc
    obtain ⟨-, hnum⟩ := List.mem_filter.mp htr
    rcases hq : tr.quantity with _ | q
    · simp [numericOk, hq] at hnum
    · rcases hp : tr.unit_price with _ | p
      · simp [numericOk, hq, hp] at hnum
      · refine ⟨q, p, hq, hp, ?_⟩
        simp only [stampRecord]
        rw [hq, hp]
  · rw [runPipeline_sampleRaw]
    simp only [List.map_cons, List.map_nil, sampleClean]

/-- C2 counterexample to the original claim: at quantity `"3"` and
unit_price `"1.005"` the surviving record's order_total is the double
3.01 — the double product 3.0149999999999997 sits below the half-cent —
while exact rounding of quantity × unit_price gives 3.02, and the two
doubles differ. -/
theorem order_total_cex :
    (runPipeline "1.0.0" "2024-05-01 12:00:00" [sampleRawHalfCent]).map
        CleanRecord.order_total =
      [some (SparkDouble.finite (1694479359798149 / 562949953421312 : ℚ))] ∧
    ratToDouble (301 / 100 : ℚ) = SparkDouble.finite (1694479359798149 / 562949953421312 : ℚ) ∧
    roundHalfUp2 ((3 : ℚ) * (201 / 200)) = 302 / 100 ∧
    ratToDouble (301 / 100 : ℚ) ≠ ratToDouble (302 / 100 : ℚ) := by
  refine ⟨?_, by with_unfolding_all rfl, by with_unfolding_all rfl,
    by with_unfolding_all decide⟩
  unfold runPipeline
  rw [validatedRecords_halfCent]
  simp only [List.map_cons, List.map_nil, stampRecord, sampleTyped, stamp_chain_halfCent]

/-- C2 witness: the general shape instantiated on the concrete
quantity-3, price-9.995 row. -/
theorem order_total_correct_witness :
    (∃ q p, (sampleClean "1.0.0" "2024-05-01 12:00:00").quantity = some q ∧
        (sampleClean "1.0.0" "2024-05-01 12:00:00").unit_price = some p ∧
        (sampleClean "1.0.0" "2024-05-01 12:00:00").order_total =
          some (sparkRound2 (sparkMul (intToDouble q) p))) ∧
    (runPipeline "1.0.0" "2024-05-01 12:00:00" [sampleRaw]).map CleanRecord.order_total =
      [some (SparkDouble.finite (8441434551552573 / 281474976710656 : ℚ))] ∧
    ratToDouble (2999 / 100 : ℚ) = SparkDouble.finite (8441434551552573 / 281474976710656 : ℚ) :=
  order_total_correct "1.0.0" "2024-05-01 12:00:00" [sampleRaw] _
    mem_runPipeline_sampleRaw

/-- C7: cleaned_at and pipeline_version are present on every output
record, equal to the run constants (hence identical across all records
of one run), and the stamping step drops no record. -/
theorem audit_columns (version cleanedAt : String) (raw : List RawRecord)
    (c c' : CleanRecord) (hc : c ∈ runPipeline version cleanedAt raw)
    (hc' : c' ∈ runPipeline version cleanedAt raw) :
    c.cleaned_at = cleanedAt ∧ c.pipeline_version = version ∧
    c.cleaned_at = c'.cleaned_at ∧ c.pipeline_version = c'.pipeline_version ∧
    (runPipeline version cleanedAt raw).length = (validatedRecords raw).length := by
  unfold runPipeline at hc hc'
  obtain ⟨tr, _, rfl⟩ := List.mem_map.mp hc
  obtain ⟨tr', _, rfl⟩ := List.mem_map.mp hc'
  exact ⟨rfl, rfl, rfl, rfl, by simp [runPipeline]⟩

/-- C7 witness: the audit facts on a concrete run. -/
theorem audit_columns_witness :
    (sampleClean "1.0.0" "2024-05-01 12:00:00").cleaned_at = "2024-05-01 12:00:00" ∧
    (sampleClean "1.0.0" "2024-05-01 12:00:00").pipeline_version = "1.0.0" ∧
    (sampleClean "1.0.0" "2024-05-01 12:00:00").cleaned_at =
      (sampleClean "1.0.0" "2024-05-01 12:00:00").cleaned_at ∧
    (sampleClean "1.0.0" "2024-05-01 12:00:00").pipeline_version =
      (sampleClean "1.0.0" "2024-05-01 12:00:00").pipeline_version ∧
    (runPipeline "1.0.0" "2024-05-01 12:00:00" [sampleRaw]).length =
      (validatedRecords [sampleRaw]).length :=
  audit_columns "1.0.0" "2024-05-01 12:00:00" [sampleRaw] _ _
    mem_runPipeline_sampleRaw mem_runPipeline_sampleRaw

/-- C8: the core transform is deterministic — two runs on the same raw
input with the same version and timestamp constants produce identical
output collections (the embedding is a pure function of its inputs). -/
theorem pipeline_deterministic (version cleanedAt : String) (raw raw' : List RawRecord)
    (h : raw = raw') :
    runPipeline version cleanedAt raw = runPipeline version cleanedAt raw' := by
  rw [h]

/-- C8 witness: two identical concrete runs agree. -/
theorem pipeline_deterministic_witness :
    runPipeline "1.0.0" "2024-05-01 12:00:00" [sampleRaw] =
      runPipeline "1.0.0" "2024-05-01 12:00:00" [sampleRaw] :=
  pipeline_deterministic "1.0.0" "2024-05-01 12:00:00" [sampleRaw] [sampleRaw] rfl

/-- C4: the date parser maps `"2024-01-15"` to `"2024-01-15"`,
`"15/01/2024"` to `"2024-01-15"`, `"Jan 18 2024"` to `"2024-01-18"`,
`"31/02/2024"` to absence (no valid calendar date), `"not-a-date"` to
absence, and an absent input to absence rather than an error. -/
theorem parse_date_table :
    parse_date (some "2024-01-15") = some "2024-01-15" ∧
    parse_date (some "15/01/2024") = some "2024-01-15" ∧
    parse_date (some "Jan 18 2024") = some "2024-01-18" ∧
    parse_date (some "31/02/2024") = none ∧
    parse_date (some "not-a-date") = none ∧
    parse_date none = none := by
  refine ⟨?_, ?_, ?_, ?_, ?_, rfl⟩ <;> rfl

/-- C6: deduplication keeps exactly one copy of any row that occurs in
the input (however many exact duplicates there are), and an empty input
yields an empty output. -/
theorem dedup_exactly_one :
    dedupRecords ([] : List RawRecord) = [] ∧
    ∀ (l : List RawRecord) (r : RawRecord), r ∈ l → (dedupRecords l).count r = 1 := by
  refine ⟨rfl, fun l r h => ?_⟩
  rw [count_dedupRecords, if_pos h]

/-- C6 witness: a concrete input with three exact duplicates keeps
exactly one copy. -/
theorem dedup_exactly_one_witness :
    (dedupRecords [sampleRaw, sampleRaw, sampleRaw]).count sampleRaw = 1 :=
  dedup_exactly_one.2 [sampleRaw, sampleRaw, sampleRaw] sampleRaw (by decide)

/-- C9: duplicates are removed before whitespace is trimmed, so two raw
rows that differ only in the whitespace of one field both survive
deduplication, and — both being otherwise valid — the final output
contains two byte-identical clean rows. -/
theorem dedup_before_trim_allows_output_duplicates :
    sampleRawPadded ≠ sampleRaw ∧
    runPipeline "1.0.0" "2024-05-01 12:00:00" [sampleRawPadded, sampleRaw] =
      [sampleClean "1.0.0" "2024-05-01 12:00:00",
       sampleClean "1.0.0" "2024-05-01 12:00:00"] := by
  refine ⟨by decide, ?_⟩
  unfold runPipeline
  rw [validatedRecords_padded]
  simp only [List.map_cons, List.map_nil, stampRecord, sampleTyped, sampleClean,
    stamp_chain_sample]

/-- C10: a present but whitespace-only email is trimmed to the empty
string, which is not the `NULL` sentinel (so it stays present) and does
not match the email pattern, so the row is dropped — while the same row
with an absent email is kept. -/
theorem whitespace_email_dropped :
    runPipeline "1.0.0" "2024-05-01 12:00:00" [sampleRawWsEmail] = [] ∧
    runPipeline "1.0.0" "2024-05-01 12:00:00" [sampleRawNoEmail] =
      [sampleCleanNoEmail "1.0.0" "2024-05-01 12:00:00"] ∧
    nullifyStr (some "") = some "" ∧
    matchEmail "".data = false := by
  refine ⟨by with_unfolding_all rfl, ?_, rfl, rfl⟩
  unfold runPipeline
  rw [validatedRecords_noEmail]
  simp only [List.map_cons, List.map_nil, stampRecord, sampleTyped, sampleClean,
    sampleCleanNoEmail, stamp_chain_sample]

/-- C5: a record with an absent email passes the step-8 check; a record
with a present email is kept exactly when the whole string matches the
anchored pattern (local-chars, `@`, domain-chars, `.`, a two-or-more
letter TLD); `"a@b.co"` passes and `"a@b"` fails. -/
theorem email_filter_spec :
    (∀ r : RawRecord, r.email = none → emailOk r = true) ∧
    (∀ (r : RawRecord) (s : String), r.email = some s →
      (emailOk r = true ↔ SpecEmail s.data)) ∧
    matchEmail "a@b.co".data = true ∧ matchEmail "a@b".data = false := by
  refine ⟨?_, ?_, by decide, by decide⟩
  · intro r h
    unfold emailOk
    rw [h]
  · intro r s h
    unfold emailOk
    rw [h]
    exact matchEmail_iff s.data

/-- C5 witness: the check on a concrete absent-email record and a
concrete present-email record. -/
theorem email_filter_spec_witness :
    emailOk sampleRawNoEmail = true ∧
    (emailOk sampleRaw = true ↔ SpecEmail "A@B.co".data) :=
  ⟨email_filter_spec.1 sampleRawNoEmail rfl,
   email_filter_spec.2.1 sampleRaw "A@B.co" rfl⟩

/-! ### Splitter lemmas for the format-order claim -/

/-- `splitByP` of a list with no separators is that list alone. -/
theorem splitByP_no_sep {p : Char → Bool} {cs : List Char}
    (h : ∀ c ∈ cs, p c = false) : splitByP p cs = [cs] := by
  induction cs with
  | nil => rfl
  | cons c cs ih =>
    have hc := h c (List.mem_cons_self c cs)
    have ih' := ih fun x hx => h x (List.mem_cons_of_mem c hx)
    simp [splitByP, hc, ih']

/-- `splitByP` peels off a separator-free head field. -/
theorem splitByP_append {p : Char → Bool} {a r : List Char} {s : Char}
    (ha : ∀ c ∈ a, p c = false) (hs : p s = true) :
    splitByP p (a ++ s :: r) = a :: splitByP p r := by
  induction a with
  | nil => simp [splitByP, hs]
  | cons c a ih =>
    have hc := ha c (List.mem_cons_self c a)
    have ih' := ih fun x hx => ha x (List.mem_cons_of_mem c hx)
    simp [splitByP, hc, ih']

/-- A token accepted by `parseNum2` is one or two digits. -/
theorem parseNum2_facts {hi : Nat} {cs : List Char} {n : Nat}
    (h : parseNum2 hi cs = some n) :
    cs.all isDigitChar = true ∧ (cs.length = 1 ∨ cs.length = 2) := by
  unfold parseNum2 at h
  by_cases hc : (cs.length = 1 ∨ cs.length = 2) ∧ cs.all isDigitChar = true ∧
      1 ≤ tokenVal cs ∧ tokenVal cs ≤ hi
  · exact ⟨hc.2.1, hc.1⟩
  · rw [if_neg hc] at h
    exact Option.noConfusion h

/-- A token accepted by `parseYear4` is exactly four digits. -/
theorem parseYear4_facts {cs : List Char} {n : Nat}
    (h : parseYear4 cs = some n) : cs.all isDigitChar = true ∧ cs.length = 4 := by
  unfold parseYear4 at h
  by_cases hc : cs.length = 4 ∧ cs.all isDigitChar = true
  · exact ⟨hc.2, hc.1⟩
  · rw [if_neg hc] at h
    exact Option.noConfusion h

/-- The four-digit year field rejects one- and two-digit tokens — this is
what makes the ISO pattern unable to capture a day-first string. -/
theorem parseYear4_short {cs : List Char} (h : cs.length = 1 ∨ cs.length = 2) :
    parseYear4 cs = none := by
  unfold parseYear4
  rw [if_neg]
  rintro ⟨h4, -⟩
  omega

/-- A digit character is not a hyphen, not a slash and not whitespace. -/
theorem isDigitChar_facts {c : Char} (h : isDigitChar c = true) :
    (c == '-') = false ∧ (c == '/') = false ∧ isWsChar c = false := by
  refine ⟨?_, ?_, ?_⟩
  · cases hb : c == '-' with
    | false => rfl
    | true =>
      obtain rfl := eq_of_beq hb
      exact absurd h (by decide)
  · cases hb : c == '/' with
    | false => rfl
    | true =>
      obtain rfl := eq_of_beq hb
      exact absurd h (by decide)
  · simp only [isDigitChar, Bool.and_eq_true, decide_eq_true_eq] at h
    simp only [isWsChar, decide_eq_false_iff_not]
    omega

/-- `dropWhile` is the identity on a list whose members all fail `p`. -/
theorem dropWhile_all_false {p : Char → Bool} {cs : List Char}
    (h : ∀ c ∈ cs, p c = false) : cs.dropWhile p = cs := by
  cases cs with
  | nil => rfl
  | cons c cs => simp [List.dropWhile_cons, h c (List.mem_cons_self c cs)]

/-- Trimming a whitespace-free list is the identity. -/
theorem trimChars_no_ws {cs : List Char} (h : ∀ c ∈ cs, isWsChar c = false) :
    trimChars cs = cs := by
  unfold trimChars
  rw [dropWhile_all_false h,
    dropWhile_all_false fun c hc => h c (List.mem_reverse.mp hc),
    List.reverse_reverse]

/-- C3 (amended): the six formats are tried in their written order — a
successful ISO parse always wins — and a string of `DD-MM-YYYY` shape
(day and month tokens of one or two digits, a four-digit year token) can
never match the ISO pattern first, because its year field demands four
digits in the leading position; so every valid `DD-MM-YYYY` input string
is read day-first, never year-first, and the output is the `strftime`
rendering of that reading — the canonicalization whenever the year is at
least 1000 (below 1000 the year prints unpadded). -/
theorem parse_date_format_order :
    (∀ (s : String) (y m d : Nat), tryIso (trimChars s.data) = some (y, m, d) →
      parse_date (some s) = some (formatDate y m d)) ∧
    (∀ (dcs mcs ycs : List Char) (y m d : Nat),
      parseNum2 31 dcs = some d → parseNum2 12 mcs = some m →
      parseYear4 ycs = some y → validDate y m d →
      parse_date (some ⟨dcs ++ '-' :: (mcs ++ '-' :: ycs)⟩) =
          some (formatDate y m d) ∧
        (1000 ≤ y → isCanonicalDate (formatDate y m d) = true)) := by
  constructor
  · intro s y m d h
    simp only [parse_date, h, firstSome]
  · intro dcs mcs ycs y m d hd hm hy hv
    refine ⟨?_, fun h1000 => formatDate_canonical hv h1000⟩
    obtain ⟨hdall, hdlen⟩ := parseNum2_facts hd
    obtain ⟨hmall, hmlen⟩ := parseNum2_facts hm
    obtain ⟨hyall, hylen⟩ := parseYear4_facts hy
    rw [List.all_eq_true] at hdall hmall hyall
    have hchars : ∀ c ∈ dcs ++ '-' :: (mcs ++ '-' :: ycs),
        isDigitChar c = true ∨ c = '-' := by
      intro c hc
      rcases List.mem_append.mp hc with h1 | h1
      · exact Or.inl (hdall c h1)
      · rcases List.mem_cons.mp h1 with rfl | h2
        · exact Or.inr rfl
        · rcases List.mem_append.mp h2 with h3 | h3
          · exact Or.inl (hmall c h3)
          · rcases List.mem_cons.mp h3 with rfl | h4
            · exact Or.inr rfl
            · exact Or.inl (hyall c h4)
    have hnws : ∀ c ∈ dcs ++ '-' :: (mcs ++ '-' :: ycs), isWsChar c = false := by
      intro c hc
      rcases hchars c hc with h1 | rfl
      · exact (isDigitChar_facts h1).2.2
      · decide
    have hnslash : ∀ c ∈ dcs ++ '-' :: (mcs ++ '-' :: ycs), (c == '/') = false := by
      intro c hc
      rcases hchars c hc with h1 | rfl
      · exact (isDigitChar_facts h1).2.1
      · decide
    have hsplitDash : splitOnChar '-' (dcs ++ '-' :: (mcs ++ '-' :: ycs)) =
        [dcs, mcs, ycs] := by
      unfold splitOnChar
      rw [splitByP_append (fun c hc => (isDigitChar_facts (hdall c hc)).1) (by decide),
        splitByP_append (fun c hc => (isDigitChar_facts (hmall c hc)).1) (by decide),
        splitByP_no_sep fun c hc => (isDigitChar_facts (hyall c hc)).1]
    have hsplitSlash : splitOnChar '/' (dcs ++ '-' :: (mcs ++ '-' :: ycs)) =
        [dcs ++ '-' :: (mcs ++ '-' :: ycs)] := by
      unfold splitOnChar
      exact splitByP_no_sep hnslash
    have hie : (dcs ++ '-' :: (mcs ++ '-' :: ycs)).isEmpty = false := by
      cases dcs <;> rfl
    have hsplitWs : splitWs (dcs ++ '-' :: (mcs ++ '-' :: ycs)) =
        [dcs ++ '-' :: (mcs ++ '-' :: ycs)] := by
      unfold splitWs
      rw [splitByP_no_sep hnws]
      simp [List.filter_cons, hie]
    have h1 : tryIso (dcs ++ '-' :: (mcs ++ '-' :: ycs)) = none := by
      unfold tryIso
      simp only [hsplitDash, parseYear4_short hdlen]
    have h2 : tryDmySlash (dcs ++ '-' :: (mcs ++ '-' :: ycs)) = none := by
      unfold tryDmySlash
      simp only [hsplitSlash]
    have h3 : tryYmdSlash (dcs ++ '-' :: (mcs ++ '-' :: ycs)) = none := by
      unfold tryYmdSlash
      simp only [hsplitSlash]
    have h4 : tryMonthName monthNamesAbbr (dcs ++ '-' :: (mcs ++ '-' :: ycs)) = none := by
      unfold tryMonthName
      simp only [hsplitWs]
    have h5 : tryMonthName monthNamesFull (dcs ++ '-' :: (mcs ++ '-' :: ycs)) = none := by
      unfold tryMonthName
      simp only [hsplitWs]
    have h6 : tryDmyDash (dcs ++ '-' :: (mcs ++ '-' :: ycs)) = some (y, m, d) := by
      unfold tryDmyDash
      simp only [hsplitDash, hd, hm, hy, checkDate, hv, if_true]
    simp only [parse_date, trimChars_no_ws hnws, h1, h2, h3, h4, h5, h6, firstSome]

/-- C3 counterexample to the original claim: the valid `DD-MM-YYYY`
string `"15-01-0500"` is read day-first but rendered with an unpadded
year, so the output `"500-01-15"` is not the canonicalization. -/
theorem parse_date_format_order_cex :
    parse_date (some "15-01-0500") = some "500-01-15" ∧
    parse_date (some "15-01-0500") ≠ some "0500-01-15" ∧
    isCanonicalDate "500-01-15" = false := by
  refine ⟨by rfl, by decide, by decide⟩

/-- C3 witness: a concrete ISO string parses ISO-first, and the concrete
day-first string `"18-01-2024"` is read day-first (18 January 2024), not
year-first, with a canonical rendering. -/
theorem parse_date_format_order_witness :
    parse_date (some "2024-03-05") = some (formatDate 2024 3 5) ∧
    (parse_date (some ⟨['1', '8'] ++ '-' :: (['0', '1'] ++ '-' :: ['2', '0', '2', '4'])⟩) =
        some (formatDate 2024 1 18) ∧
      (1000 ≤ 2024 → isCanonicalDate (formatDate 2024 1 18) = true)) :=
  ⟨parse_date_format_order.1 "2024-03-05" 2024 3 5 (by decide),
   parse_date_format_order.2 ['1', '8'] ['0', '1'] ['2', '0', '2', '4'] 2024 1 18
     (by decide) (by decide) (by decide) (by decide)⟩

end GlueTransform
